import Mathlib

/-
Verification of the lockbox time-locked encrypted container format
(src/lockbox.py) against its natural-language specification.

Modelling conventions:
* Python byte strings are List Nat (each entry intended < 256); Python str
  values are represented by their UTF-8 byte encodings.
* The external cryptographic library functions (hashlib.sha256,
  Crypto.Hash.HMAC/SHA256, AES in CBC mode) are abstracted as a structure
  CryptoPrims carrying the functions together with the interface contracts
  the program relies on (digest lengths, CBC decryption inverting CBC
  encryption).  Everything written in lockbox.py itself (padding, base64,
  the container layout, the read/write protocol) is translated directly.
* Randomness (the fresh IV) and the external collaborators (NTP time fetch,
  local clock) are inputs to the embedded functions.
* read_lockbox additionally returns a trace of the externally visible
  operations it performs, in order, so that ordering claims (MAC before
  decryption, no decryption before expiry, no file write on error paths)
  can be stated.
-/

abbrev Bytes := List Nat

/-- AES.block_size for AES: 16 bytes. -/
def BLOCK_SIZE : Nat := 16

/-- SHA256.digest_size: 32 bytes. -/
def HMAC_SIZE : Nat := 32

/-- Python bytes.split(sep, 1): the part before the first occurrence of sep
and the part after it; none when sep does not occur. -/
def splitFirst (sep : Nat) : Bytes → Option (Bytes × Bytes)
  | [] => none
  | b :: rest =>
    if b = sep then some ([], rest)
    else Option.map (fun p => (b :: p.1, p.2)) (splitFirst sep rest)

/-- Crypto.Util.Padding.pad with block size 16 (PKCS#7): append n copies of
n where n = 16 - len mod 16. -/
def pkcs7Pad (data : Bytes) : Bytes :=
  data ++ List.replicate (16 - data.length % 16) (16 - data.length % 16)

/-- Crypto.Util.Padding.unpad with block size 16 (PKCS#7).  Fails (raises
ValueError in the source) on empty input, on input whose length is not a
multiple of 16, and on a structurally invalid final padding block. -/
def pkcs7Unpad (data : Bytes) : Option Bytes :=
  if data.length = 0 then none
  else if ¬ data.length % 16 = 0 then none
  else
    let n := data.getLast?.getD 0
    if n < 1 ∨ 16 < n then none
    else if ¬ data.drop (data.length - n) = List.replicate n n then none
    else some (data.take (data.length - n))

/-- The base64 alphabet: value 0..63 to character code. -/
def b64alph (v : Nat) : Nat :=
  if v < 26 then 65 + v
  else if v < 52 then 97 + (v - 26)
  else if v < 62 then 48 + (v - 52)
  else if v = 62 then 43
  else 47

/-- Character code to base64 value; none for characters outside the
alphabet (the character 61, the padding sign, is handled separately). -/
def b64val (c : Nat) : Option Nat :=
  if 65 ≤ c ∧ c ≤ 90 then some (c - 65)
  else if 97 ≤ c ∧ c ≤ 122 then some (c - 97 + 26)
  else if 48 ≤ c ∧ c ≤ 57 then some (c - 48 + 52)
  else if c = 43 then some 62
  else if c = 47 then some 63
  else none

/-- base64.b64encode: groups of three bytes become four alphabet
characters, with padding signs for a short final group. -/
def b64encode : Bytes → Bytes
  | [] => []
  | [a] => [b64alph (a / 4), b64alph (a % 4 * 16), 61, 61]
  | [a, b] => [b64alph (a / 4), b64alph (a % 4 * 16 + b / 16), b64alph (b % 16 * 4), 61]
  | a :: b :: c :: rest =>
    b64alph (a / 4) :: b64alph (a % 4 * 16 + b / 16) ::
      b64alph (b % 16 * 4 + c / 64) :: b64alph (c % 64) :: b64encode rest

/-- CPython binascii.a2b_base64 in its default non-strict mode, as invoked
by base64.b64decode: characters outside the alphabet are silently skipped;
a padding sign is only acted upon once at least two data characters of the
current group have been seen, and enough padding ends the decode, ignoring
the rest of the input; at end of input a partially filled group is an
error.  State: remaining input, position in the current group (0..3), bits
carried from the previous character, count of pending padding signs. -/
def a2bAux : Bytes → Nat → Nat → Nat → Option Bytes
  | [], q, _, _ => if q = 0 then some [] else none
  | c :: rest, q, left, pads =>
    if c = 61 then
      if 2 ≤ q ∧ 4 ≤ q + (pads + 1) then some []
      else a2bAux rest q left (if 2 ≤ q then pads + 1 else pads)
    else
      match b64val c with
      | none => a2bAux rest q left pads
      | some v =>
        if q = 0 then a2bAux rest 1 v 0
        else if q = 1 then Option.map (fun l => (left * 4 + v / 16) :: l) (a2bAux rest 2 (v % 16) 0)
        else if q = 2 then Option.map (fun l => (left * 16 + v / 4) :: l) (a2bAux rest 3 (v % 4) 0)
        else Option.map (fun l => (left * 64 + v) :: l) (a2bAux rest 0 0 0)

/-- base64.b64decode applied to a Python str: the str must be pure ASCII
(its encode to ascii raises ValueError otherwise), then the non-strict
binascii decoder runs. -/
def pyB64Decode (s : Bytes) : Option Bytes :=
  if s.all (fun c => c < 128) then a2bAux s 0 0 0 else none

/-- A UTF-8 continuation byte. -/
def isCont (b : Nat) : Bool := decide (128 ≤ b ∧ b ≤ 191)

/-- Strict UTF-8 validity, one lead byte at a time, with a fuel argument
bounding the recursion depth (any fuel at least the list length gives the
same answer). -/
def validUtf8Go : Nat → Bytes → Bool
  | _, [] => true
  | 0, _ :: _ => false
  | fuel + 1, b :: rest =>
    if b ≤ 127 then validUtf8Go fuel rest
    else if 194 ≤ b ∧ b ≤ 223 then
      decide (1 ≤ rest.length) && isCont (rest.headD 0) && validUtf8Go fuel (rest.drop 1)
    else if b = 224 then
      decide (2 ≤ rest.length) && decide (160 ≤ rest.headD 0 ∧ rest.headD 0 ≤ 191)
        && isCont ((rest.drop 1).headD 0) && validUtf8Go fuel (rest.drop 2)
    else if 225 ≤ b ∧ b ≤ 236 then
      decide (2 ≤ rest.length) && isCont (rest.headD 0)
        && isCont ((rest.drop 1).headD 0) && validUtf8Go fuel (rest.drop 2)
    else if b = 237 then
      decide (2 ≤ rest.length) && decide (128 ≤ rest.headD 0 ∧ rest.headD 0 ≤ 159)
        && isCont ((rest.drop 1).headD 0) && validUtf8Go fuel (rest.drop 2)
    else if 238 ≤ b ∧ b ≤ 239 then
      decide (2 ≤ rest.length) && isCont (rest.headD 0)
        && isCont ((rest.drop 1).headD 0) && validUtf8Go fuel (rest.drop 2)
    else if b = 240 then
      decide (3 ≤ rest.length) && decide (144 ≤ rest.headD 0 ∧ rest.headD 0 ≤ 191)
        && isCont ((rest.drop 1).headD 0) && isCont ((rest.drop 2).headD 0)
        && validUtf8Go fuel (rest.drop 3)
    else if 241 ≤ b ∧ b ≤ 243 then
      decide (3 ≤ rest.length) && isCont (rest.headD 0)
        && isCont ((rest.drop 1).headD 0) && isCont ((rest.drop 2).headD 0)
        && validUtf8Go fuel (rest.drop 3)
    else if b = 244 then
      decide (3 ≤ rest.length) && decide (128 ≤ rest.headD 0 ∧ rest.headD 0 ≤ 143)
        && isCont ((rest.drop 1).headD 0) && isCont ((rest.drop 2).headD 0)
        && validUtf8Go fuel (rest.drop 3)
    else false

/-- Strict UTF-8 validity of a byte sequence, as checked by Python's
bytes.decode with the utf-8 codec (rejecting overlong forms, surrogates
and values above 0x10FFFF). -/
def validUtf8 (l : Bytes) : Bool := validUtf8Go l.length l

/-- A datetime value as the program uses it: the six calendar fields plus
microseconds (strptime leaves microseconds at 0; the NTP result has them).
Both sides of the comparison in read_lockbox carry the same local tzinfo,
so the aware comparison is the lexicographic comparison of these fields. -/
structure DT where
  year : Nat
  month : Nat
  day : Nat
  hour : Nat
  minute : Nat
  second : Nat
  micro : Nat
deriving DecidableEq

/-- Lexicographic datetime comparison (both values carrying the same local
timezone). -/
def dtLt (a b : DT) : Bool :=
  if ¬ a.year = b.year then a.year < b.year
  else if ¬ a.month = b.month then a.month < b.month
  else if ¬ a.day = b.day then a.day < b.day
  else if ¬ a.hour = b.hour then a.hour < b.hour
  else if ¬ a.minute = b.minute then a.minute < b.minute
  else if ¬ a.second = b.second then a.second < b.second
  else a.micro < b.micro

/-- The strptime day field, directive %d: two digits 01..31, a bare digit
1..9, or a space followed by a digit 1..9. -/
def dayField : Bytes → Option Nat
  | [c] => if 49 ≤ c ∧ c ≤ 57 then some (c - 48) else none
  | [c1, c2] =>
    if c1 = 51 ∧ (c2 = 48 ∨ c2 = 49) then some (30 + (c2 - 48))
    else if (c1 = 49 ∨ c1 = 50) ∧ (48 ≤ c2 ∧ c2 ≤ 57) then some ((c1 - 48) * 10 + (c2 - 48))
    else if c1 = 48 ∧ (49 ≤ c2 ∧ c2 ≤ 57) then some (c2 - 48)
    else if c1 = 32 ∧ (49 ≤ c2 ∧ c2 ≤ 57) then some (c2 - 48)
    else none
  | _ => none

/-- The strptime month field, directive %m: 01..12 or a bare digit 1..9. -/
def monthField : Bytes → Option Nat
  | [c] => if 49 ≤ c ∧ c ≤ 57 then some (c - 48) else none
  | [c1, c2] =>
    if c1 = 49 ∧ (48 ≤ c2 ∧ c2 ≤ 50) then some (10 + (c2 - 48))
    else if c1 = 48 ∧ (49 ≤ c2 ∧ c2 ≤ 57) then some (c2 - 48)
    else none
  | _ => none

/-- The strptime year field, directive %Y: exactly four digits. -/
def yearField : Bytes → Option Nat
  | [c1, c2, c3, c4] =>
    if (48 ≤ c1 ∧ c1 ≤ 57) ∧ (48 ≤ c2 ∧ c2 ≤ 57) ∧ (48 ≤ c3 ∧ c3 ≤ 57) ∧ (48 ≤ c4 ∧ c4 ≤ 57)
    then some ((c1 - 48) * 1000 + (c2 - 48) * 100 + (c3 - 48) * 10 + (c4 - 48))
    else none
  | _ => none

/-- The strptime hour field, directive %H: 20..23, 00..19, or one digit. -/
def hourField : Bytes → Option Nat
  | [c] => if 48 ≤ c ∧ c ≤ 57 then some (c - 48) else none
  | [c1, c2] =>
    if c1 = 50 ∧ (48 ≤ c2 ∧ c2 ≤ 51) then some (20 + (c2 - 48))
    else if (c1 = 48 ∨ c1 = 49) ∧ (48 ≤ c2 ∧ c2 ≤ 57) then some ((c1 - 48) * 10 + (c2 - 48))
    else none
  | _ => none

/-- The strptime minute field, directive %M: 00..59 or one digit. -/
def minuteField : Bytes → Option Nat
  | [c] => if 48 ≤ c ∧ c ≤ 57 then some (c - 48) else none
  | [c1, c2] =>
    if (48 ≤ c1 ∧ c1 ≤ 53) ∧ (48 ≤ c2 ∧ c2 ≤ 57) then some ((c1 - 48) * 10 + (c2 - 48))
    else none
  | _ => none

/-- The strptime second field, directive %S: 60..61 (leap seconds), 00..59,
or one digit.  Values 60 and 61 are later rejected by the datetime
constructor. -/
def secondField : Bytes → Option Nat
  | [c] => if 48 ≤ c ∧ c ≤ 57 then some (c - 48) else none
  | [c1, c2] =>
    if c1 = 54 ∧ (c2 = 48 ∨ c2 = 49) then some (60 + (c2 - 48))
    else if (48 ≤ c1 ∧ c1 ≤ 53) ∧ (48 ≤ c2 ∧ c2 ≤ 57) then some ((c1 - 48) * 10 + (c2 - 48))
    else none
  | _ => none

/-- Gregorian leap year. -/
def isLeapYear (y : Nat) : Bool := decide (y % 4 = 0 ∧ (¬ y % 100 = 0 ∨ y % 400 = 0))

/-- Days in a month (month already known to be 1..12). -/
def daysInMonth (y m : Nat) : Nat :=
  if m = 2 then (if isLeapYear y then 29 else 28)
  else if m = 4 ∨ m = 6 ∨ m = 9 ∨ m = 11 then 30
  else 31

/-- datetime.strptime with format %d/%m/%Y %H:%M:%S, followed by the
datetime constructor's range checks (year at least 1, day within the
month, second at most 59).  The whole string must be consumed.  None of
the field languages contains a slash, a space (other than a leading space
in the day field, which lies before the first slash) or a colon, so the
regex match splits at the first occurrence of each separator. -/
def parseExpiry (s : Bytes) : Option DT := do
  let (dS, r1) ← splitFirst 47 s
  let (mS, r2) ← splitFirst 47 r1
  let (yS, r3) ← splitFirst 32 r2
  let (hS, r4) ← splitFirst 58 r3
  let (minS, secS) ← splitFirst 58 r4
  let d ← dayField dS
  let mo ← monthField mS
  let y ← yearField yS
  let h ← hourField hS
  let mi ← minuteField minS
  let se ← secondField secS
  if y < 1 then none
  else if daysInMonth y mo < d then none
  else if 59 < se then none
  else some ⟨y, mo, d, h, mi, se, 0⟩

/-- Python str.split on the colon with maxsplit 2: one, two or three
parts. -/
def pySplitColon2 (s : Bytes) : List Bytes :=
  match splitFirst 58 s with
  | none => [s]
  | some (a, r) =>
    match splitFirst 58 r with
    | none => [a, r]
    | some (b, r2) => [a, b, r2]

/-- The recovered output file name: stem, the literal _decrypted, and the
extension after a dot when the extension is nonempty. -/
def mkOutputName (stem ext : Bytes) : Bytes :=
  if ext = [] then stem ++ [95, 100, 101, 99, 114, 121, 112, 116, 101, 100]
  else stem ++ [95, 100, 101, 99, 114, 121, 112, 116, 101, 100] ++ [46] ++ ext

/-- The external cryptographic primitives used by lockbox.py, together
with the interface contracts the program relies on: SHA-256 and HMAC-SHA256
produce 32-byte digests, and AES-CBC decryption inverts AES-CBC encryption
for a 32-byte key, a 16-byte IV and block-aligned input, preserving
length. -/
structure CryptoPrims where
  sha256 : Bytes → Bytes
  hmacSha256 : Bytes → Bytes → Bytes
  aesCbcEnc : Bytes → Bytes → Bytes → Bytes
  aesCbcDec : Bytes → Bytes → Bytes → Bytes
  sha256_length : ∀ m, (sha256 m).length = 32
  hmac_length : ∀ k m, (hmacSha256 k m).length = 32
  aesCbcEnc_length : ∀ k iv p, k.length = 32 → iv.length = 16 → p.length % 16 = 0 →
    (aesCbcEnc k iv p).length = p.length
  aesCbc_dec_enc : ∀ k iv p, k.length = 32 → iv.length = 16 → p.length % 16 = 0 →
    aesCbcDec k iv (aesCbcEnc k iv p) = p

/-- The original file's identity and raw bytes, as combined by
write_lockbox before encryption. -/
structure Payload where
  nameStem : Bytes
  extension : Bytes
  content : Bytes
deriving DecidableEq

/-- The inner plaintext encoding: nameStem, colon, extension, colon,
base64 of the content. -/
def encodePayload (p : Payload) : Bytes :=
  p.nameStem ++ [58] ++ p.extension ++ [58] ++ b64encode p.content

/-- derive_keys: two 256-bit keys from the password, SHA-256 of the
password with the suffixes enc and mac. -/
def derive_keys (C : CryptoPrims) (password : Bytes) : Bytes × Bytes :=
  (C.sha256 (password ++ [101, 110, 99]), C.sha256 (password ++ [109, 97, 99]))

/-- encrypt_secret: pad, encrypt under a fresh IV, return IV followed by
ciphertext.  The IV, produced by get_random_bytes(16) in the source, is an
input here. -/
def encrypt_secret (C : CryptoPrims) (plaintext : Bytes) (key_enc iv : Bytes) : Bytes :=
  iv ++ C.aesCbcEnc key_enc iv (pkcs7Pad plaintext)

/-- decrypt_secret: split the blob into IV and ciphertext, decrypt, unpad,
decode as UTF-8.  Every failure the source can raise here is a ValueError:
a wrong-size IV from AES.new, ciphertext not block-aligned from the CBC
decryptor, invalid padding from unpad, and invalid UTF-8 from decode
(UnicodeDecodeError is a ValueError). -/
def decrypt_secret (C : CryptoPrims) (blob : Bytes) (key_enc : Bytes) : Option Bytes :=
  let iv := blob.take BLOCK_SIZE
  let ct := blob.drop BLOCK_SIZE
  if ¬ iv.length = 16 then none
  else if ¬ ct.length % 16 = 0 then none
  else
    match pkcs7Unpad (C.aesCbcDec key_enc iv ct) with
    | none => none
    | some pt => if validUtf8 pt then some pt else none

/-- write_lockbox, its cryptographic core: the expiry string has already
been validated by the input loop, the payload has been read and encoded,
and the resulting container bytes are handed to the file writer.  Returns
the serialized container. -/
def write_lockbox (C : CryptoPrims) (expiry_str : Bytes) (p : Payload) (password iv : Bytes) : Bytes :=
  let keys := derive_keys C password
  let encrypted_blob := encrypt_secret C (encodePayload p) keys.1 iv
  let msg := expiry_str ++ [10] ++ encrypted_blob
  msg ++ C.hmacSha256 keys.2 msg

/-- Where a run of read_lockbox can end. -/
inductive FormatReason
  | tooSmall
  | noNewline
  | badExpiry
  | wrongPartCount
  | badBase64
deriving DecidableEq

inductive ReadOutcome
  | formatError (r : FormatReason)
  | integrityError
  | timeUnavailable
  | notYetExpired (expiry : DT)
  | decryptionError
  | released (p : Payload) (outName : Bytes)
deriving DecidableEq

/-- The externally visible operations read_lockbox performs, in order. -/
inductive Event
  | deriveKeys
  | macVerify (ok : Bool)
  | fetchTime (ok : Bool)
  | compareTime
  | decrypt
  | writeFile (name : Bytes)
deriving DecidableEq

/-- The environment of one read: the NTP fetch result (none is any network
failure or timeout) and the machine's local clock, which read_lockbox
never consults. -/
structure Env where
  trustedTime : Option DT
  localTime : DT

/-- read_lockbox, its core after the file has been read and the password
prompted: derive keys, split off the tag, verify the HMAC, split the
expiry line at the first newline, parse it, fetch trusted time, gate on
expiry, decrypt, parse the decrypted value, and hand the recovered bytes
to the file writer.  Returns the outcome and the ordered event trace. -/
def read_lockbox (C : CryptoPrims) (content password : Bytes) (env : Env) :
    ReadOutcome × List Event :=
  let keys := derive_keys C password
  if content.length ≤ HMAC_SIZE then
    (ReadOutcome.formatError FormatReason.tooSmall, [Event.deriveKeys])
  else
    let msg := content.take (content.length - HMAC_SIZE)
    let tag := content.drop (content.length - HMAC_SIZE)
    if ¬ C.hmacSha256 keys.2 msg = tag then
      (ReadOutcome.integrityError, [Event.deriveKeys, Event.macVerify false])
    else
      match splitFirst 10 msg with
      | none =>
        (ReadOutcome.formatError FormatReason.noNewline, [Event.deriveKeys, Event.macVerify true])
      | some (expiry_line, encrypted_blob) =>
        match parseExpiry expiry_line with
        | none =>
          (ReadOutcome.formatError FormatReason.badExpiry, [Event.deriveKeys, Event.macVerify true])
        | some exp_dt =>
          match env.trustedTime with
          | none =>
            (ReadOutcome.timeUnavailable,
             [Event.deriveKeys, Event.macVerify true, Event.fetchTime false])
          | some now =>
            if dtLt now exp_dt then
              (ReadOutcome.notYetExpired exp_dt,
               [Event.deriveKeys, Event.macVerify true, Event.fetchTime true, Event.compareTime])
            else
              match decrypt_secret C encrypted_blob keys.1 with
              | none =>
                (ReadOutcome.decryptionError,
                 [Event.deriveKeys, Event.macVerify true, Event.fetchTime true,
                  Event.compareTime, Event.decrypt])
              | some decrypted_value =>
                match pySplitColon2 decrypted_value with
                | [stem, ext, b64part] =>
                  match pyB64Decode b64part with
                  | none =>
                    (ReadOutcome.formatError FormatReason.badBase64,
                     [Event.deriveKeys, Event.macVerify true, Event.fetchTime true,
                      Event.compareTime, Event.decrypt])
                  | some file_content =>
                    (ReadOutcome.released ⟨stem, ext, file_content⟩ (mkOutputName stem ext),
                     [Event.deriveKeys, Event.macVerify true, Event.fetchTime true,
                      Event.compareTime, Event.decrypt, Event.writeFile (mkOutputName stem ext)])
                | _ =>
                  (ReadOutcome.formatError FormatReason.wrongPartCount,
                   [Event.deriveKeys, Event.macVerify true, Event.fetchTime true,
                    Event.compareTime, Event.decrypt])

/-- Modelled from the spec: the serialize layout of the LockboxCodec,
expiry string, the byte 0x0A, the IV, the ciphertext and the tag
concatenated with no length prefixes. -/
def serializeSpec (expiryString iv ciphertext tag : Bytes) : Bytes :=
  expiryString ++ [10] ++ iv ++ ciphertext ++ tag

/-- Modelled from the spec: the MAC input, expiry bytes, the byte 0x0A and
the envelope bytes. -/
def macMessageSpec (expiryString envelope : Bytes) : Bytes :=
  expiryString ++ [10] ++ envelope

/-- Modelled from the spec: the KeyDeriver, encKey the hash of the
password with suffix enc, macKey the hash of the password with suffix
mac. -/
def deriveSpec (C : CryptoPrims) (password : Bytes) : Bytes × Bytes :=
  (C.sha256 (password ++ [101, 110, 99]), C.sha256 (password ++ [109, 97, 99]))

/-- A concrete instance of the cryptographic primitives, used to evaluate
the protocol at concrete inputs: the hash keeps the first 32 bytes of the
message padded with zeros, the MAC the first 32 bytes of key and message,
and the block cipher is the identity.  It satisfies every interface
contract. -/
def toyCrypto : CryptoPrims where
  sha256 := fun m => (m ++ List.replicate 32 0).take 32
  hmacSha256 := fun k m => (k ++ m ++ List.replicate 32 0).take 32
  aesCbcEnc := fun _ _ p => p
  aesCbcDec := fun _ _ c => c
  sha256_length := by
    intro m
    simp
  hmac_length := by
    intro k m
    simp
    omega
  aesCbcEnc_length := by
    intro k iv p _ _ _
    rfl
  aesCbc_dec_enc := by
    intro k iv p _ _ _
    rfl

/-- The password p1 of the spec's concrete scenario. -/
def pw0 : Bytes := [112, 49]

/-- The expiry string 01/01/2000 00:00:00 of the spec's concrete
scenario. -/
def e0 : Bytes := [48, 49, 47, 48, 49, 47, 50, 48, 48, 48, 32, 48, 48, 58, 48, 48, 58, 48, 48]

/-- The datetime e0 parses to. -/
def dt0 : DT := ⟨2000, 1, 1, 0, 0, 0, 0⟩

/-- A trusted time well after dt0. -/
def now0 : DT := ⟨2021, 5, 5, 12, 0, 0, 0⟩

/-- An environment whose time fetch succeeds and returns now0. -/
def env0 : Env := ⟨some now0, now0⟩

/-- An environment whose time fetch fails. -/
def envNone : Env := ⟨none, now0⟩

/-- A concrete 16-byte IV. -/
def iv0 : Bytes := List.replicate 16 0

/-- The payload of the spec's concrete scenario: file a.txt containing
hello. -/
def payload0 : Payload := ⟨[97], [116, 120, 116], [104, 101, 108, 108, 111]⟩

/-- A decrypted value whose third colon-part contains the byte 64, a
character outside the base64 alphabet: a, colon, b, colon, AA==@. -/
def plain9 : Bytes := [97, 58, 98, 58, 65, 65, 61, 61, 64]

/-- A container that decrypts (under toyCrypto and pw0) to plain9, with a
valid tag. -/
def content9 : Bytes :=
  let msg := e0 ++ [10] ++ (iv0 ++ pkcs7Pad plain9)
  msg ++ toyCrypto.hmacSha256 (derive_keys toyCrypto pw0).2 msg

/-- A container whose encrypted blob is empty, with a valid tag. -/
def content10 : Bytes :=
  let msg := e0 ++ [10]
  msg ++ toyCrypto.hmacSha256 (derive_keys toyCrypto pw0).2 msg

/-- A container with a single byte before the tag, no newline, and a tag
that authenticates. -/
def content8b : Bytes := [65] ++ toyCrypto.hmacSha256 (derive_keys toyCrypto pw0).2 [65]

/-- A container with a valid tag whose decrypted value has a third part
that even the lenient base64 decoder rejects: a, colon, b, colon, x. -/
def content9b : Bytes :=
  let msg := e0 ++ [10] ++ (iv0 ++ pkcs7Pad [97, 58, 98, 58, 120])
  msg ++ toyCrypto.hmacSha256 (derive_keys toyCrypto pw0).2 msg

/-- Taking the length of the left part of an append returns that part. -/
theorem take_append_self (a b : Bytes) : (a ++ b).take a.length = a := by simp

/-- Dropping the length of the left part of an append returns the right
part. -/
theorem drop_append_self (a b : Bytes) : (a ++ b).drop a.length = b := by simp


/-- splitFirst on a list whose left part avoids the separator finds the
separator between the parts. -/
theorem splitFirst_append (sep : Nat) (a r : Bytes) (h : ¬ sep ∈ a) :
    splitFirst sep (a ++ sep :: r) = some (a, r) := by
  induction a with
  | nil => simp [splitFirst]
  | cons x xs ih =>
    simp only [List.mem_cons, not_or] at h
    have hx : ¬ x = sep := fun hx => h.1 hx.symm
    simp [splitFirst, hx, ih h.2]

/-- splitFirst fails when the separator is absent. -/
theorem splitFirst_eq_none (sep : Nat) (s : Bytes) (h : ¬ sep ∈ s) :
    splitFirst sep s = none := by
  induction s with
  | nil => rfl
  | cons x xs ih =>
    simp only [List.mem_cons, not_or] at h
    have hx : ¬ x = sep := fun hx => h.1 hx.symm
    simp [splitFirst, hx, ih h.2]

/-- A successful splitFirst decomposes its input, and the separator does
not occur in the left part. -/
theorem splitFirst_some (sep : Nat) (s a r : Bytes) (h : splitFirst sep s = some (a, r)) :
    s = a ++ sep :: r ∧ ¬ sep ∈ a := by
  induction s generalizing a r with
  | nil => simp [splitFirst] at h
  | cons x xs ih =>
    by_cases hx : x = sep
    · simp only [splitFirst, if_pos hx, Option.some.injEq, Prod.mk.injEq] at h
      obtain ⟨rfl, rfl⟩ := h
      simp [hx]
    · simp only [splitFirst, if_neg hx] at h
      cases hsp : splitFirst sep xs with
      | none => rw [hsp] at h; simp at h
      | some p =>
        obtain ⟨a', r'⟩ := p
        rw [hsp] at h
        simp only [Option.map_some', Option.some.injEq, Prod.mk.injEq] at h
        obtain ⟨ha, rfl⟩ := h
        obtain ⟨hs, hm⟩ := ih a' r' hsp
        subst ha
        refine ⟨by rw [hs]; rfl, ?_⟩
        simp only [List.mem_cons, not_or]
        exact ⟨fun hc => hx hc.symm, hm⟩

/-- The padded length is a positive multiple of the block size. -/
theorem pkcs7Pad_length (d : Bytes) :
    (pkcs7Pad d).length % 16 = 0 ∧ 0 < (pkcs7Pad d).length := by
  simp only [pkcs7Pad, List.length_append, List.length_replicate]
  omega

/-- Unpadding inverts padding. -/
theorem pkcs7Unpad_pad (d : Bytes) : pkcs7Unpad (pkcs7Pad d) = some d := by
  have hr : d.length % 16 < 16 := Nat.mod_lt _ (by omega)
  set n := 16 - d.length % 16 with hn
  have hn1 : 1 ≤ n := by omega
  have hn16 : n ≤ 16 := by omega
  show pkcs7Unpad (d ++ List.replicate n n) = some d
  have hlen : (d ++ List.replicate n n).length = d.length + n := by simp
  have hlast : (d ++ List.replicate n n).getLast? = some n := by
    rw [List.getLast?_append_of_ne_nil]
    · cases hc : n with
      | zero => omega
      | succ m => simp [List.getLast?_replicate]
    · intro hc
      have := congrArg List.length hc
      simp at this
      omega
  have harith : d.length + n - n = d.length := by omega
  simp only [pkcs7Unpad, hlen, hlast, Option.getD_some, harith]
  rw [if_neg (by omega), if_neg (by omega), if_neg (by omega)]
  rw [if_neg (by rw [not_not]; exact drop_append_self d _)]
  rw [take_append_self]

/-- Every alphabet character round-trips through the value table, is not
the padding sign, is ASCII, and is not the colon. -/
theorem b64alph_spec : ∀ v, v < 64 →
    b64val (b64alph v) = some v ∧ ¬ b64alph v = 61 ∧ b64alph v < 128 ∧ ¬ b64alph v = 58 := by
  decide

/-- The decoder consumes a data character in group position 0. -/
theorem a2bAux_data0 (c v : Nat) (t : Bytes) (l p : Nat)
    (hv : b64val c = some v) (hne : ¬ c = 61) :
    a2bAux (c :: t) 0 l p = a2bAux t 1 v 0 := by
  simp [a2bAux, hne, hv]

/-- The decoder consumes a data character in group position 1, emitting a
byte. -/
theorem a2bAux_data1 (c v : Nat) (t : Bytes) (l p : Nat)
    (hv : b64val c = some v) (hne : ¬ c = 61) :
    a2bAux (c :: t) 1 l p
      = Option.map (fun r => (l * 4 + v / 16) :: r) (a2bAux t 2 (v % 16) 0) := by
  simp [a2bAux, hne, hv]

/-- The decoder consumes a data character in group position 2, emitting a
byte. -/
theorem a2bAux_data2 (c v : Nat) (t : Bytes) (l p : Nat)
    (hv : b64val c = some v) (hne : ¬ c = 61) :
    a2bAux (c :: t) 2 l p
      = Option.map (fun r => (l * 16 + v / 4) :: r) (a2bAux t 3 (v % 4) 0) := by
  simp [a2bAux, hne, hv]

/-- The decoder consumes a data character in group position 3, emitting a
byte and returning to position 0. -/
theorem a2bAux_data3 (c v : Nat) (t : Bytes) (l p : Nat)
    (hv : b64val c = some v) (hne : ¬ c = 61) :
    a2bAux (c :: t) 3 l p
      = Option.map (fun r => (l * 64 + v) :: r) (a2bAux t 0 0 0) := by
  simp [a2bAux, hne, hv]

/-- A first padding sign in group position 2 is only recorded. -/
theorem a2bAux_pad2_first (t : Bytes) (l : Nat) :
    a2bAux (61 :: t) 2 l 0 = a2bAux t 2 l 1 := by
  simp [a2bAux]

/-- A second padding sign in group position 2 completes the decode,
ignoring the rest of the input. -/
theorem a2bAux_pad2_second (t : Bytes) (l : Nat) :
    a2bAux (61 :: t) 2 l 1 = some [] := by
  simp [a2bAux]

/-- A padding sign in group position 3 completes the decode, ignoring the
rest of the input. -/
theorem a2bAux_pad3 (t : Bytes) (l : Nat) :
    a2bAux (61 :: t) 3 l 0 = some [] := by
  simp [a2bAux]

/-- Every character the encoder outputs is ASCII and not the colon. -/
theorem b64encode_mem (bs : Bytes) (h : ∀ x ∈ bs, x < 256) :
    ∀ c ∈ b64encode bs, c < 128 ∧ ¬ c = 58 := by
  induction bs using b64encode.induct with
  | case1 => simp [b64encode]
  | case2 a =>
    have ha : a < 256 := h a (by simp)
    have s1 := b64alph_spec (a / 4) (by omega)
    have s2 := b64alph_spec (a % 4 * 16) (by omega)
    intro c hc
    simp only [b64encode, List.mem_cons, List.not_mem_nil, or_false] at hc
    rcases hc with rfl | rfl | rfl | rfl
    · exact ⟨s1.2.2.1, s1.2.2.2⟩
    · exact ⟨s2.2.2.1, s2.2.2.2⟩
    · omega
    · omega
  | case3 a b =>
    have ha : a < 256 := h a (by simp)
    have hb : b < 256 := h b (by simp)
    have s1 := b64alph_spec (a / 4) (by omega)
    have s2 := b64alph_spec (a % 4 * 16 + b / 16) (by omega)
    have s3 := b64alph_spec (b % 16 * 4) (by omega)
    intro c hc
    simp only [b64encode, List.mem_cons, List.not_mem_nil, or_false] at hc
    rcases hc with rfl | rfl | rfl | rfl
    · exact ⟨s1.2.2.1, s1.2.2.2⟩
    · exact ⟨s2.2.2.1, s2.2.2.2⟩
    · exact ⟨s3.2.2.1, s3.2.2.2⟩
    · omega
  | case4 a b c rest ih =>
    have ha : a < 256 := h a (by simp)
    have hb : b < 256 := h b (by simp)
    have hc' : c < 256 := h c (by simp)
    have s1 := b64alph_spec (a / 4) (by omega)
    have s2 := b64alph_spec (a % 4 * 16 + b / 16) (by omega)
    have s3 := b64alph_spec (b % 16 * 4 + c / 64) (by omega)
    have s4 := b64alph_spec (c % 64) (by omega)
    intro x hx
    simp only [b64encode, List.mem_cons] at hx
    rcases hx with rfl | rfl | rfl | rfl | hx
    · exact ⟨s1.2.2.1, s1.2.2.2⟩
    · exact ⟨s2.2.2.1, s2.2.2.2⟩
    · exact ⟨s3.2.2.1, s3.2.2.2⟩
    · exact ⟨s4.2.2.1, s4.2.2.2⟩
    · exact ih (fun y hy => h y (by simp [hy])) x hx

/-- The non-strict decoder inverts the encoder. -/
theorem a2bAux_b64encode (bs : Bytes) (h : ∀ x ∈ bs, x < 256) :
    a2bAux (b64encode bs) 0 0 0 = some bs := by
  induction bs using b64encode.induct with
  | case1 => rfl
  | case2 a =>
    have ha : a < 256 := h a (by simp)
    obtain ⟨hv1, hne1, -, -⟩ := b64alph_spec (a / 4) (by omega)
    obtain ⟨hv2, hne2, -, -⟩ := b64alph_spec (a % 4 * 16) (by omega)
    show a2bAux (b64encode [a]) 0 0 0 = some [a]
    rw [show b64encode [a] = [b64alph (a / 4), b64alph (a % 4 * 16), 61, 61] from rfl]
    rw [a2bAux_data0 _ _ _ _ _ hv1 hne1, a2bAux_data1 _ _ _ _ _ hv2 hne2,
        a2bAux_pad2_first, a2bAux_pad2_second]
    simp only [Option.map_some', Option.some.injEq, List.cons.injEq, and_true]
    omega
  | case3 a b =>
    have ha : a < 256 := h a (by simp)
    have hb : b < 256 := h b (by simp)
    obtain ⟨hv1, hne1, -, -⟩ := b64alph_spec (a / 4) (by omega)
    obtain ⟨hv2, hne2, -, -⟩ := b64alph_spec (a % 4 * 16 + b / 16) (by omega)
    obtain ⟨hv3, hne3, -, -⟩ := b64alph_spec (b % 16 * 4) (by omega)
    show a2bAux (b64encode [a, b]) 0 0 0 = some [a, b]
    rw [show b64encode [a, b]
        = [b64alph (a / 4), b64alph (a % 4 * 16 + b / 16), b64alph (b % 16 * 4), 61] from rfl]
    rw [a2bAux_data0 _ _ _ _ _ hv1 hne1, a2bAux_data1 _ _ _ _ _ hv2 hne2,
        a2bAux_data2 _ _ _ _ _ hv3 hne3, a2bAux_pad3]
    simp only [Option.map_some', Option.some.injEq, List.cons.injEq, and_true]
    omega
  | case4 a b c rest ih =>
    have ha : a < 256 := h a (by simp)
    have hb : b < 256 := h b (by simp)
    have hc : c < 256 := h c (by simp)
    obtain ⟨hv1, hne1, -, -⟩ := b64alph_spec (a / 4) (by omega)
    obtain ⟨hv2, hne2, -, -⟩ := b64alph_spec (a % 4 * 16 + b / 16) (by omega)
    obtain ⟨hv3, hne3, -, -⟩ := b64alph_spec (b % 16 * 4 + c / 64) (by omega)
    obtain ⟨hv4, hne4, -, -⟩ := b64alph_spec (c % 64) (by omega)
    show a2bAux (b64encode (a :: b :: c :: rest)) 0 0 0 = some (a :: b :: c :: rest)
    rw [show b64encode (a :: b :: c :: rest)
        = b64alph (a / 4) :: b64alph (a % 4 * 16 + b / 16) ::
            b64alph (b % 16 * 4 + c / 64) :: b64alph (c % 64) :: b64encode rest from rfl]
    rw [a2bAux_data0 _ _ _ _ _ hv1 hne1, a2bAux_data1 _ _ _ _ _ hv2 hne2,
        a2bAux_data2 _ _ _ _ _ hv3 hne3, a2bAux_data3 _ _ _ _ _ hv4 hne4]
    rw [ih (fun y hy => h y (by simp [hy]))]
    simp only [Option.map_some', Option.some.injEq, List.cons.injEq]
    refine ⟨by omega, by omega, by omega, trivial⟩

/-- The lenient Python base64 decode inverts the encode. -/
theorem pyB64Decode_b64encode (bs : Bytes) (h : ∀ x ∈ bs, x < 256) :
    pyB64Decode (b64encode bs) = some bs := by
  rw [pyB64Decode, if_pos, a2bAux_b64encode bs h]
  rw [List.all_eq_true]
  intro c hc
  exact decide_eq_true (b64encode_mem bs h c hc).1



/-- The fuel argument of validUtf8Go is irrelevant once it reaches the
list length. -/
theorem validUtf8Go_eq : ∀ (f1 : Nat) (l : Bytes) (f2 : Nat), l.length ≤ f1 → l.length ≤ f2 →
    validUtf8Go f1 l = validUtf8Go f2 l := by
  intro f1
  induction f1 with
  | zero =>
    intro l f2 h1 h2
    rcases l with _ | ⟨b, rest⟩
    · cases f2 <;> rfl
    · simp at h1
  | succ n ih =>
    intro l f2 h1 h2
    rcases l with _ | ⟨b, rest⟩
    · cases f2 <;> rfl
    · rcases f2 with _ | m
      · simp at h2
      · simp only [List.length_cons] at h1 h2
        have e0 : validUtf8Go n rest = validUtf8Go m rest :=
          ih rest m (by omega) (by omega)
        have e1 : validUtf8Go n (rest.drop 1) = validUtf8Go m (rest.drop 1) :=
          ih _ m (by simp; omega) (by simp; omega)
        have e2 : validUtf8Go n (rest.drop 2) = validUtf8Go m (rest.drop 2) :=
          ih _ m (by simp; omega) (by simp; omega)
        have e3 : validUtf8Go n (rest.drop 3) = validUtf8Go m (rest.drop 3) :=
          ih _ m (by simp; omega) (by simp; omega)
        rw [validUtf8Go, validUtf8Go, e0, e1, e2, e3]

/-- Appending valid UTF-8 to valid UTF-8 stays valid, fuel form. -/
theorem validUtf8Go_append : ∀ (n : Nat) (xs ys : Bytes), xs.length ≤ n →
    validUtf8 ys = true → validUtf8Go n xs = true →
    validUtf8Go (n + ys.length) (xs ++ ys) = true := by
  intro n
  induction n with
  | zero =>
    intro xs ys h hy hx
    rcases xs with _ | ⟨b, rest⟩
    · rw [List.nil_append, validUtf8Go_eq _ _ ys.length (by omega) (le_refl _)]
      exact hy
    · simp at h
  | succ n ih =>
    intro xs ys h hy hx
    rcases xs with _ | ⟨b, rest⟩
    · rw [List.nil_append, validUtf8Go_eq _ _ ys.length (by simp) (le_refl _)]
      exact hy
    · simp only [List.length_cons] at h
      rw [validUtf8Go] at hx
      simp only [List.cons_append]
      have hn : n + 1 + ys.length = (n + ys.length) + 1 := by omega
      rw [hn, validUtf8Go]
      by_cases h1 : b ≤ 127
      · rw [if_pos h1] at hx ⊢
        exact ih rest ys (by omega) hy hx
      · rw [if_neg h1] at hx ⊢
        by_cases h2 : 194 ≤ b ∧ b ≤ 223
        · rw [if_pos h2] at hx ⊢
          simp only [Bool.and_eq_true, decide_eq_true_eq] at hx
          obtain ⟨⟨hlen, hc1⟩, hrec⟩ := hx
          rcases rest with _ | ⟨c1, r⟩
          · simp at hlen
          · simp only [List.headD_cons, List.drop_succ_cons, List.drop_zero] at hc1 hrec
            simp only [List.cons_append, List.headD_cons, List.drop_succ_cons, List.drop_zero]
            simp only [Bool.and_eq_true, decide_eq_true_eq]
            refine ⟨⟨by simp, hc1⟩, ?_⟩
            exact ih r ys (by simp only [List.length_cons] at h; omega) hy hrec
        · rw [if_neg h2] at hx ⊢
          by_cases h3 : b = 224
          · rw [if_pos h3] at hx ⊢
            simp only [Bool.and_eq_true, decide_eq_true_eq] at hx
            obtain ⟨⟨⟨hlen, hr1⟩, hc2⟩, hrec⟩ := hx
            rcases rest with _ | ⟨c1, _ | ⟨c2, r⟩⟩
            · simp at hlen
            · simp at hlen
            · simp only [List.headD_cons, List.drop_succ_cons, List.drop_zero] at hr1 hc2 hrec
              simp only [List.cons_append, List.headD_cons, List.drop_succ_cons, List.drop_zero]
              simp only [Bool.and_eq_true, decide_eq_true_eq]
              refine ⟨⟨⟨by simp, hr1⟩, hc2⟩, ?_⟩
              exact ih r ys (by simp only [List.length_cons] at h; omega) hy hrec
          · rw [if_neg h3] at hx ⊢
            by_cases h4 : 225 ≤ b ∧ b ≤ 236
            · rw [if_pos h4] at hx ⊢
              simp only [Bool.and_eq_true, decide_eq_true_eq] at hx
              obtain ⟨⟨⟨hlen, hr1⟩, hc2⟩, hrec⟩ := hx
              rcases rest with _ | ⟨c1, _ | ⟨c2, r⟩⟩
              · simp at hlen
              · simp at hlen
              · simp only [List.headD_cons, List.drop_succ_cons, List.drop_zero] at hr1 hc2 hrec
                simp only [List.cons_append, List.headD_cons, List.drop_succ_cons, List.drop_zero]
                simp only [Bool.and_eq_true, decide_eq_true_eq]
                refine ⟨⟨⟨by simp, hr1⟩, hc2⟩, ?_⟩
                exact ih r ys (by simp only [List.length_cons] at h; omega) hy hrec
            · rw [if_neg h4] at hx ⊢
              by_cases h5 : b = 237
              · rw [if_pos h5] at hx ⊢
                simp only [Bool.and_eq_true, decide_eq_true_eq] at hx
                obtain ⟨⟨⟨hlen, hr1⟩, hc2⟩, hrec⟩ := hx
                rcases rest with _ | ⟨c1, _ | ⟨c2, r⟩⟩
                · simp at hlen
                · simp at hlen
                · simp only [List.headD_cons, List.drop_succ_cons, List.drop_zero]
                    at hr1 hc2 hrec
                  simp only [List.cons_append, List.headD_cons, List.drop_succ_cons,
                    List.drop_zero]
                  simp only [Bool.and_eq_true, decide_eq_true_eq]
                  refine ⟨⟨⟨by simp, hr1⟩, hc2⟩, ?_⟩
                  exact ih r ys (by simp only [List.length_cons] at h; omega) hy hrec
              · rw [if_neg h5] at hx ⊢
                by_cases h6 : 238 ≤ b ∧ b ≤ 239
                · rw [if_pos h6] at hx ⊢
                  simp only [Bool.and_eq_true, decide_eq_true_eq] at hx
                  obtain ⟨⟨⟨hlen, hr1⟩, hc2⟩, hrec⟩ := hx
                  rcases rest with _ | ⟨c1, _ | ⟨c2, r⟩⟩
                  · simp at hlen
                  · simp at hlen
                  · simp only [List.headD_cons, List.drop_succ_cons, List.drop_zero]
                      at hr1 hc2 hrec
                    simp only [List.cons_append, List.headD_cons, List.drop_succ_cons,
                      List.drop_zero]
                    simp only [Bool.and_eq_true, decide_eq_true_eq]
                    refine ⟨⟨⟨by simp, hr1⟩, hc2⟩, ?_⟩
                    exact ih r ys (by simp only [List.length_cons] at h; omega) hy hrec
                · rw [if_neg h6] at hx ⊢
                  by_cases h7 : b = 240
                  · rw [if_pos h7] at hx ⊢
                    simp only [Bool.and_eq_true, decide_eq_true_eq] at hx
                    obtain ⟨⟨⟨⟨hlen, hr1⟩, hc2⟩, hc3⟩, hrec⟩ := hx
                    rcases rest with _ | ⟨c1, _ | ⟨c2, _ | ⟨c3, r⟩⟩⟩
                    · simp at hlen
                    · simp at hlen
                    · simp at hlen
                    · simp only [List.headD_cons, List.drop_succ_cons, List.drop_zero]
                        at hr1 hc2 hc3 hrec
                      simp only [List.cons_append, List.headD_cons, List.drop_succ_cons,
                        List.drop_zero]
                      simp only [Bool.and_eq_true, decide_eq_true_eq]
                      refine ⟨⟨⟨⟨by simp, hr1⟩, hc2⟩, hc3⟩, ?_⟩
                      exact ih r ys (by simp only [List.length_cons] at h; omega) hy hrec
                  · rw [if_neg h7] at hx ⊢
                    by_cases h8 : 241 ≤ b ∧ b ≤ 243
                    · rw [if_pos h8] at hx ⊢
                      simp only [Bool.and_eq_true, decide_eq_true_eq] at hx
                      obtain ⟨⟨⟨⟨hlen, hr1⟩, hc2⟩, hc3⟩, hrec⟩ := hx
                      rcases rest with _ | ⟨c1, _ | ⟨c2, _ | ⟨c3, r⟩⟩⟩
                      · simp at hlen
                      · simp at hlen
                      · simp at hlen
                      · simp only [List.headD_cons, List.drop_succ_cons, List.drop_zero]
                          at hr1 hc2 hc3 hrec
                        simp only [List.cons_append, List.headD_cons, List.drop_succ_cons,
                          List.drop_zero]
                        simp only [Bool.and_eq_true, decide_eq_true_eq]
                        refine ⟨⟨⟨⟨by simp, hr1⟩, hc2⟩, hc3⟩, ?_⟩
                        exact ih r ys (by simp only [List.length_cons] at h; omega) hy hrec
                    · rw [if_neg h8] at hx ⊢
                      by_cases h9 : b = 244
                      · rw [if_pos h9] at hx ⊢
                        simp only [Bool.and_eq_true, decide_eq_true_eq] at hx
                        obtain ⟨⟨⟨⟨hlen, hr1⟩, hc2⟩, hc3⟩, hrec⟩ := hx
                        rcases rest with _ | ⟨c1, _ | ⟨c2, _ | ⟨c3, r⟩⟩⟩
                        · simp at hlen
                        · simp at hlen
                        · simp at hlen
                        · simp only [List.headD_cons, List.drop_succ_cons, List.drop_zero]
                            at hr1 hc2 hc3 hrec
                          simp only [List.cons_append, List.headD_cons, List.drop_succ_cons,
                            List.drop_zero]
                          simp only [Bool.and_eq_true, decide_eq_true_eq]
                          refine ⟨⟨⟨⟨by simp, hr1⟩, hc2⟩, hc3⟩, ?_⟩
                          exact ih r ys (by simp only [List.length_cons] at h; omega) hy hrec
                      · rw [if_neg h9] at hx ⊢
                        exact absurd hx (by simp)

/-- Valid UTF-8 followed by valid UTF-8 is valid UTF-8. -/
theorem validUtf8_append (xs ys : Bytes) (hx : validUtf8 xs = true)
    (hy : validUtf8 ys = true) : validUtf8 (xs ++ ys) = true := by
  have h := validUtf8Go_append xs.length xs ys (le_refl _) hy hx
  rw [validUtf8Go_eq _ _ (xs ++ ys).length (by simp) (le_refl _)] at h
  exact h

/-- A pure ASCII byte sequence is valid UTF-8. -/
theorem validUtf8_ascii (xs : Bytes) (h : ∀ c ∈ xs, c ≤ 127) : validUtf8 xs = true := by
  induction xs with
  | nil => rfl
  | cons x t ih =>
    have hx : x ≤ 127 := h x (by simp)
    show validUtf8Go (x :: t).length (x :: t) = true
    simp only [List.length_cons]
    rw [validUtf8Go, if_pos hx]
    exact ih (fun c hc => h c (by simp [hc]))

/-- Dropping an ASCII head byte preserves UTF-8 validity in both
directions. -/
theorem validUtf8_cons_ascii (c : Nat) (t : Bytes) (hc : c ≤ 127) :
    validUtf8 (c :: t) = validUtf8 t := by
  show validUtf8Go (c :: t).length (c :: t) = validUtf8 t
  simp only [List.length_cons]
  rw [validUtf8Go, if_pos hc]
  rfl

/-- A parsed day field contains no newline byte. -/
theorem dayField_chars (xs : Bytes) (v : Nat) (h : dayField xs = some v) :
    ∀ c ∈ xs, ¬ c = 10 := by
  match xs with
  | [] => exact absurd h (by simp [dayField])
  | [c] =>
    simp only [dayField] at h
    split at h
    · intro x hx
      simp only [List.mem_cons, List.not_mem_nil, or_false] at hx
      subst hx
      omega
    · exact Option.noConfusion h
  | [c1, c2] =>
    simp only [dayField] at h
    repeat' split at h
    all_goals
      first
      | exact Option.noConfusion h
      | (intro x hx
         simp only [List.mem_cons, List.not_mem_nil, or_false] at hx
         rcases hx with rfl | rfl <;> omega)
  | _ :: _ :: _ :: _ => exact absurd h (by simp [dayField])

/-- A parsed month field contains no newline byte. -/
theorem monthField_chars (xs : Bytes) (v : Nat) (h : monthField xs = some v) :
    ∀ c ∈ xs, ¬ c = 10 := by
  match xs with
  | [] => exact absurd h (by simp [monthField])
  | [c] =>
    simp only [monthField] at h
    split at h
    · intro x hx
      simp only [List.mem_cons, List.not_mem_nil, or_false] at hx
      subst hx
      omega
    · exact Option.noConfusion h
  | [c1, c2] =>
    simp only [monthField] at h
    repeat' split at h
    all_goals
      first
      | exact Option.noConfusion h
      | (intro x hx
         simp only [List.mem_cons, List.not_mem_nil, or_false] at hx
         rcases hx with rfl | rfl <;> omega)
  | _ :: _ :: _ :: _ => exact absurd h (by simp [monthField])

/-- A parsed year field contains no newline byte. -/
theorem yearField_chars (xs : Bytes) (v : Nat) (h : yearField xs = some v) :
    ∀ c ∈ xs, ¬ c = 10 := by
  match xs with
  | [c1, c2, c3, c4] =>
    simp only [yearField] at h
    split at h
    · intro x hx
      simp only [List.mem_cons, List.not_mem_nil, or_false] at hx
      rcases hx with rfl | rfl | rfl | rfl <;> omega
    · exact Option.noConfusion h
  | [] => exact absurd h (by simp [yearField])
  | [_] => exact absurd h (by simp [yearField])
  | [_, _] => exact absurd h (by simp [yearField])
  | [_, _, _] => exact absurd h (by simp [yearField])
  | _ :: _ :: _ :: _ :: _ :: _ => exact absurd h (by simp [yearField])

/-- A parsed hour field contains no newline byte. -/
theorem hourField_chars (xs : Bytes) (v : Nat) (h : hourField xs = some v) :
    ∀ c ∈ xs, ¬ c = 10 := by
  match xs with
  | [] => exact absurd h (by simp [hourField])
  | [c] =>
    simp only [hourField] at h
    split at h
    · intro x hx
      simp only [List.mem_cons, List.not_mem_nil, or_false] at hx
      subst hx
      omega
    · exact Option.noConfusion h
  | [c1, c2] =>
    simp only [hourField] at h
    repeat' split at h
    all_goals
      first
      | exact Option.noConfusion h
      | (intro x hx
         simp only [List.mem_cons, List.not_mem_nil, or_false] at hx
         rcases hx with rfl | rfl <;> omega)
  | _ :: _ :: _ :: _ => exact absurd h (by simp [hourField])

/-- A parsed minute field contains no newline byte. -/
theorem minuteField_chars (xs : Bytes) (v : Nat) (h : minuteField xs = some v) :
    ∀ c ∈ xs, ¬ c = 10 := by
  match xs with
  | [] => exact absurd h (by simp [minuteField])
  | [c] =>
    simp only [minuteField] at h
    split at h
    · intro x hx
      simp only [List.mem_cons, List.not_mem_nil, or_false] at hx
      subst hx
      omega
    · exact Option.noConfusion h
  | [c1, c2] =>
    simp only [minuteField] at h
    repeat' split at h
    all_goals
      first
      | exact Option.noConfusion h
      | (intro x hx
         simp only [List.mem_cons, List.not_mem_nil, or_false] at hx
         rcases hx with rfl | rfl <;> omega)
  | _ :: _ :: _ :: _ => exact absurd h (by simp [minuteField])

/-- A parsed second field contains no newline byte. -/
theorem secondField_chars (xs : Bytes) (v : Nat) (h : secondField xs = some v) :
    ∀ c ∈ xs, ¬ c = 10 := by
  match xs with
  | [] => exact absurd h (by simp [secondField])
  | [c] =>
    simp only [secondField] at h
    split at h
    · intro x hx
      simp only [List.mem_cons, List.not_mem_nil, or_false] at hx
      subst hx
      omega
    · exact Option.noConfusion h
  | [c1, c2] =>
    simp only [secondField] at h
    repeat' split at h
    all_goals
      first
      | exact Option.noConfusion h
      | (intro x hx
         simp only [List.mem_cons, List.not_mem_nil, or_false] at hx
         rcases hx with rfl | rfl <;> omega)
  | _ :: _ :: _ :: _ => exact absurd h (by simp [secondField])

/-- A string accepted by the expiry parser contains no newline byte. -/
theorem parseExpiry_no_newline (s : Bytes) (dt : DT) (h : parseExpiry s = some dt) :
    ¬ 10 ∈ s := by
  simp only [parseExpiry, bind, Option.bind_eq_some] at h
  obtain ⟨⟨dS, r1⟩, h1, h⟩ := h
  obtain ⟨⟨mS, r2⟩, h2, h⟩ := h
  obtain ⟨⟨yS, r3⟩, h3, h⟩ := h
  obtain ⟨⟨hS, r4⟩, h4, h⟩ := h
  obtain ⟨⟨minS, secS⟩, h5, h⟩ := h
  obtain ⟨d, hd, h⟩ := h
  obtain ⟨mo, hmo, h⟩ := h
  obtain ⟨y, hy, h⟩ := h
  obtain ⟨hh, hhh, h⟩ := h
  obtain ⟨mi, hmi, h⟩ := h
  obtain ⟨se, hse, h⟩ := h
  obtain ⟨hs1, -⟩ := splitFirst_some _ _ _ _ h1
  obtain ⟨hs2, -⟩ := splitFirst_some _ _ _ _ h2
  obtain ⟨hs3, -⟩ := splitFirst_some _ _ _ _ h3
  obtain ⟨hs4, -⟩ := splitFirst_some _ _ _ _ h4
  obtain ⟨hs5, -⟩ := splitFirst_some _ _ _ _ h5
  subst hs1 hs2 hs3 hs4 hs5
  intro hmem
  simp only [List.mem_append, List.mem_cons] at hmem
  rcases hmem with hc | hc | hc | hc | hc | hc | hc | hc | hc | hc | hc
  · exact dayField_chars _ _ hd 10 hc rfl
  · omega
  · exact monthField_chars _ _ hmo 10 hc rfl
  · omega
  · exact yearField_chars _ _ hy 10 hc rfl
  · omega
  · exact hourField_chars _ _ hhh 10 hc rfl
  · omega
  · exact minuteField_chars _ _ hmi 10 hc rfl
  · omega
  · exact secondField_chars _ _ hse 10 hc rfl

/-- Splitting with maxsplit 2 on a string built from three colon-free
parts recovers the parts. -/
theorem pySplitColon2_parts (stem ext b64 : Bytes)
    (h1 : ¬ 58 ∈ stem) (h2 : ¬ 58 ∈ ext) :
    pySplitColon2 (stem ++ 58 :: (ext ++ 58 :: b64)) = [stem, ext, b64] := by
  rw [pySplitColon2, splitFirst_append _ _ _ h1]
  simp only
  rw [splitFirst_append _ _ _ h2]

/-- The encoded payload, written in the shape the colon splitter sees. -/
theorem encodePayload_shape (p : Payload) :
    encodePayload p = p.nameStem ++ 58 :: (p.extension ++ 58 :: b64encode p.content) := by
  simp [encodePayload]

/-- The encoded payload of a payload whose fields are valid UTF-8 is
valid UTF-8. -/
theorem encodePayload_validUtf8 (p : Payload)
    (hstem : validUtf8 p.nameStem = true) (hext : validUtf8 p.extension = true)
    (hcontent : ∀ b ∈ p.content, b < 256) :
    validUtf8 (encodePayload p) = true := by
  rw [encodePayload_shape]
  apply validUtf8_append _ _ hstem
  rw [validUtf8_cons_ascii _ _ (by omega)]
  apply validUtf8_append _ _ hext
  rw [validUtf8_cons_ascii _ _ (by omega)]
  exact validUtf8_ascii _ (fun c hc => by
    have := (b64encode_mem p.content hcontent c hc).1
    omega)

/-- Decrypting an encryption of a valid UTF-8 plaintext under the same
32-byte key and a 16-byte IV recovers the plaintext. -/
theorem decrypt_encrypt_secret (C : CryptoPrims) (pt k iv : Bytes)
    (hk : k.length = 32) (hiv : iv.length = 16) (hutf : validUtf8 pt = true) :
    decrypt_secret C (encrypt_secret C pt k iv) k = some pt := by
  have hpad := pkcs7Pad_length pt
  have hct : (C.aesCbcEnc k iv (pkcs7Pad pt)).length = (pkcs7Pad pt).length :=
    C.aesCbcEnc_length k iv _ hk hiv hpad.1
  rw [encrypt_secret, decrypt_secret]
  have htake : (iv ++ C.aesCbcEnc k iv (pkcs7Pad pt)).take BLOCK_SIZE = iv := by
    rw [show BLOCK_SIZE = iv.length from hiv.symm]
    exact take_append_self _ _
  have hdrop : (iv ++ C.aesCbcEnc k iv (pkcs7Pad pt)).drop BLOCK_SIZE
      = C.aesCbcEnc k iv (pkcs7Pad pt) := by
    rw [show BLOCK_SIZE = iv.length from hiv.symm]
    exact drop_append_self _ _
  simp only [htake, hdrop]
  have hc1 : ¬ ¬ iv.length = 16 := by omega
  have hc2 : ¬ ¬ (C.aesCbcEnc k iv (pkcs7Pad pt)).length % 16 = 0 := by
    rw [hct]
    exact not_not_intro hpad.1
  rw [if_neg hc1, if_neg hc2, C.aesCbc_dec_enc k iv _ hk hiv hpad.1, pkcs7Unpad_pad]
  simp [hutf]

/-- A container of the form message followed by a 32-byte tag is split
back into message and tag by the tag-length arithmetic of read_lockbox. -/
theorem append_tag_split (msg tag : Bytes) (hlen : tag.length = 32) :
    (msg ++ tag).take ((msg ++ tag).length - 32) = msg ∧
    (msg ++ tag).drop ((msg ++ tag).length - 32) = tag := by
  have h : (msg ++ tag).length - 32 = msg.length := by simp [hlen]
  rw [h]
  exact ⟨take_append_self _ _, drop_append_self _ _⟩

/-- Claim C6: on every write, the stored tag is the MAC under the derived
macKey of the expiry bytes, the byte 0x0A and the envelope bytes (the
16-byte IV followed by the ciphertext), and the serialized container is
exactly the expiry string, 0x0A, IV, ciphertext and the 32-byte tag
concatenated with no length prefixes. -/
theorem writeLockbox_serialization (C : CryptoPrims) (e : Bytes) (p : Payload)
    (pw iv : Bytes) (hiv : iv.length = 16) :
    write_lockbox C e p pw iv
      = serializeSpec e iv (C.aesCbcEnc (derive_keys C pw).1 iv (pkcs7Pad (encodePayload p)))
          (C.hmacSha256 (derive_keys C pw).2
            (macMessageSpec e
              (iv ++ C.aesCbcEnc (derive_keys C pw).1 iv (pkcs7Pad (encodePayload p)))))
    ∧ (C.hmacSha256 (derive_keys C pw).2
        (macMessageSpec e
          (iv ++ C.aesCbcEnc (derive_keys C pw).1 iv (pkcs7Pad (encodePayload p))))).length = 32
    ∧ iv.length = 16 := by
  refine ⟨?_, C.hmac_length _ _, hiv⟩
  simp [write_lockbox, serializeSpec, macMessageSpec, encrypt_secret]

/-- Witness for C6 at the concrete scenario inputs. -/
theorem writeLockbox_serialization_witness :
    write_lockbox toyCrypto e0 payload0 pw0 iv0
      = serializeSpec e0 iv0
          (toyCrypto.aesCbcEnc (derive_keys toyCrypto pw0).1 iv0 (pkcs7Pad (encodePayload payload0)))
          (toyCrypto.hmacSha256 (derive_keys toyCrypto pw0).2
            (macMessageSpec e0
              (iv0 ++ toyCrypto.aesCbcEnc (derive_keys toyCrypto pw0).1 iv0
                (pkcs7Pad (encodePayload payload0)))))
    ∧ (toyCrypto.hmacSha256 (derive_keys toyCrypto pw0).2
        (macMessageSpec e0
          (iv0 ++ toyCrypto.aesCbcEnc (derive_keys toyCrypto pw0).1 iv0
            (pkcs7Pad (encodePayload payload0))))).length = 32
    ∧ iv0.length = 16 :=
  writeLockbox_serialization toyCrypto e0 payload0 pw0 iv0 (by decide)

/-- Claim C7: key derivation is total and deterministic, equals the
spec's formula (hash of password with suffix enc, hash of password with
suffix mac), and both keys are 256 bits. -/
theorem derive_keys_spec (C : CryptoPrims) (pw : Bytes) :
    derive_keys C pw = deriveSpec C pw
    ∧ (derive_keys C pw).1.length = 32
    ∧ (derive_keys C pw).2.length = 32 :=
  ⟨rfl, C.sha256_length _, C.sha256_length _⟩

/-- Claim C2: MAC verification happens before any decryption attempt: a
recomputed HMAC that does not match the stored tag aborts the read with
IntegrityError and the cipher is never invoked, and on every read any
decryption event is preceded by a successful MAC verification, which
occupies the first two trace positions. -/
theorem macVerify_before_decrypt (C : CryptoPrims) (content pw : Bytes) (env : Env) :
    (32 < content.length →
      ¬ C.hmacSha256 (derive_keys C pw).2 (content.take (content.length - 32))
          = content.drop (content.length - 32) →
      read_lockbox C content pw env
        = (ReadOutcome.integrityError, [Event.deriveKeys, Event.macVerify false]))
    ∧ (∀ out tr, read_lockbox C content pw env = (out, tr) →
        Event.decrypt ∈ tr → tr.take 2 = [Event.deriveKeys, Event.macVerify true]) := by
  constructor
  · intro h32 hne
    simp only [read_lockbox, HMAC_SIZE]
    rw [if_neg (by omega), if_pos hne]
  · intro out tr heq hdec
    simp only [read_lockbox, HMAC_SIZE] at heq
    repeat' split at heq
    all_goals (cases heq; simp_all)

/-- Claim C3: reading a lockbox written under one password with a
different password whose derived macKey authenticates the message
differently aborts with IntegrityError, with no decryption attempted, and
the result is the very same value produced for a tampered container, so
the two outcomes are indistinguishable. -/
theorem wrongPassword_integrityError (C : CryptoPrims) (e : Bytes) (p : Payload)
    (pwP pwQ iv : Bytes) (env : Env)
    (hq : ¬ C.hmacSha256 (derive_keys C pwQ).2
            (e ++ [10] ++ encrypt_secret C (encodePayload p) (derive_keys C pwP).1 iv)
          = C.hmacSha256 (derive_keys C pwP).2
            (e ++ [10] ++ encrypt_secret C (encodePayload p) (derive_keys C pwP).1 iv)) :
    read_lockbox C (write_lockbox C e p pwP iv) pwQ env
      = (ReadOutcome.integrityError, [Event.deriveKeys, Event.macVerify false]) := by
  have hbox : write_lockbox C e p pwP iv
      = (e ++ [10] ++ encrypt_secret C (encodePayload p) (derive_keys C pwP).1 iv)
        ++ C.hmacSha256 (derive_keys C pwP).2
            (e ++ [10] ++ encrypt_secret C (encodePayload p) (derive_keys C pwP).1 iv) := rfl
  have htl := C.hmac_length (derive_keys C pwP).2
    (e ++ [10] ++ encrypt_secret C (encodePayload p) (derive_keys C pwP).1 iv)
  obtain ⟨ht, hd⟩ := append_tag_split
    (e ++ [10] ++ encrypt_secret C (encodePayload p) (derive_keys C pwP).1 iv) _ htl
  have h32 : 32 <
      ((e ++ [10] ++ encrypt_secret C (encodePayload p) (derive_keys C pwP).1 iv)
        ++ C.hmacSha256 (derive_keys C pwP).2
            (e ++ [10] ++ encrypt_secret C (encodePayload p) (derive_keys C pwP).1 iv)).length := by
    simp only [List.length_append, htl, List.length_cons, List.length_nil]
    omega
  rw [hbox]
  simp only [read_lockbox, HMAC_SIZE]
  rw [if_neg (by omega)]
  simp only [ht, hd]
  rw [if_pos hq]

/-- Claim C5: when the trusted-time fetch fails, the read aborts with
TimeUnavailableError as soon as the fetch is reached, no expiry
comparison and no decryption ever happen, and the local clock is never
substituted: the result does not depend on the local clock at all. -/
theorem timeUnavailable_aborts (C : CryptoPrims) (content pw : Bytes) (env : Env)
    (hfail : env.trustedTime = none) :
    (∀ out tr, read_lockbox C content pw env = (out, tr) →
      (Event.fetchTime false ∈ tr →
        (out, tr) = (ReadOutcome.timeUnavailable,
          [Event.deriveKeys, Event.macVerify true, Event.fetchTime false]))
      ∧ ¬ Event.compareTime ∈ tr ∧ ¬ Event.decrypt ∈ tr)
    ∧ (∀ t1 t2 : DT, read_lockbox C content pw ⟨none, t1⟩ = read_lockbox C content pw ⟨none, t2⟩) := by
  constructor
  · intro out tr heq
    simp only [read_lockbox, HMAC_SIZE, hfail] at heq
    repeat' split at heq
    all_goals (cases heq; simp_all)
  · intro t1 t2
    rfl

/-- Claim C4: once MAC verification, expiry parsing and the trusted-time
fetch have succeeded, a trusted time strictly earlier than the expiry
yields the terminal non-error outcome NotYetExpired carrying the expiry,
with no decryption performed; a trusted time equal to or later than the
expiry proceeds to decryption. -/
theorem notYetExpired_gate (C : CryptoPrims) (content pw el blob : Bytes) (env : Env)
    (dt now : DT)
    (h32 : 32 < content.length)
    (hmac : C.hmacSha256 (derive_keys C pw).2 (content.take (content.length - 32))
            = content.drop (content.length - 32))
    (hsplit : splitFirst 10 (content.take (content.length - 32)) = some (el, blob))
    (hparse : parseExpiry el = some dt)
    (htime : env.trustedTime = some now) :
    (dtLt now dt = true →
      read_lockbox C content pw env
        = (ReadOutcome.notYetExpired dt,
           [Event.deriveKeys, Event.macVerify true, Event.fetchTime true, Event.compareTime]))
    ∧ (dtLt now dt = false → Event.decrypt ∈ (read_lockbox C content pw env).2) := by
  have hchain : read_lockbox C content pw env =
      (if dtLt now dt then
        (ReadOutcome.notYetExpired dt,
         [Event.deriveKeys, Event.macVerify true, Event.fetchTime true, Event.compareTime])
      else
        match decrypt_secret C blob (derive_keys C pw).1 with
        | none =>
          (ReadOutcome.decryptionError,
           [Event.deriveKeys, Event.macVerify true, Event.fetchTime true,
            Event.compareTime, Event.decrypt])
        | some decrypted_value =>
          match pySplitColon2 decrypted_value with
          | [stem, ext, b64part] =>
            match pyB64Decode b64part with
            | none =>
              (ReadOutcome.formatError FormatReason.badBase64,
               [Event.deriveKeys, Event.macVerify true, Event.fetchTime true,
                Event.compareTime, Event.decrypt])
            | some file_content =>
              (ReadOutcome.released ⟨stem, ext, file_content⟩ (mkOutputName stem ext),
               [Event.deriveKeys, Event.macVerify true, Event.fetchTime true,
                Event.compareTime, Event.decrypt, Event.writeFile (mkOutputName stem ext)])
          | _ =>
            (ReadOutcome.formatError FormatReason.wrongPartCount,
             [Event.deriveKeys, Event.macVerify true, Event.fetchTime true,
              Event.compareTime, Event.decrypt])) := by
    simp only [read_lockbox, HMAC_SIZE]
    rw [if_neg (by omega), if_neg (not_not_intro hmac)]
    simp only [hsplit, hparse, htime]
  constructor
  · intro hlt
    rw [hchain, if_pos hlt]
  · intro hlt
    rw [hchain, if_neg (by simp [hlt])]
    repeat' split
    all_goals simp

/-- After a verified MAC, a parsed expiry, a successful time fetch and a
passed expiry gate, read_lockbox is the decryption-and-parse stage. -/
theorem read_lockbox_decrypt_stage (C : CryptoPrims) (content pw el blob : Bytes)
    (env : Env) (dt now : DT)
    (h32 : 32 < content.length)
    (hmac : C.hmacSha256 (derive_keys C pw).2 (content.take (content.length - 32))
            = content.drop (content.length - 32))
    (hsplit : splitFirst 10 (content.take (content.length - 32)) = some (el, blob))
    (hparse : parseExpiry el = some dt)
    (htime : env.trustedTime = some now)
    (hexp : dtLt now dt = false) :
    read_lockbox C content pw env =
      (match decrypt_secret C blob (derive_keys C pw).1 with
      | none =>
        (ReadOutcome.decryptionError,
         [Event.deriveKeys, Event.macVerify true, Event.fetchTime true,
          Event.compareTime, Event.decrypt])
      | some decrypted_value =>
        match pySplitColon2 decrypted_value with
        | [stem, ext, b64part] =>
          match pyB64Decode b64part with
          | none =>
            (ReadOutcome.formatError FormatReason.badBase64,
             [Event.deriveKeys, Event.macVerify true, Event.fetchTime true,
              Event.compareTime, Event.decrypt])
          | some file_content =>
            (ReadOutcome.released ⟨stem, ext, file_content⟩ (mkOutputName stem ext),
             [Event.deriveKeys, Event.macVerify true, Event.fetchTime true,
              Event.compareTime, Event.decrypt, Event.writeFile (mkOutputName stem ext)])
        | _ =>
          (ReadOutcome.formatError FormatReason.wrongPartCount,
           [Event.deriveKeys, Event.macVerify true, Event.fetchTime true,
            Event.compareTime, Event.decrypt])) := by
  simp only [read_lockbox, HMAC_SIZE]
  rw [if_neg (by omega), if_neg (not_not_intro hmac)]
  simp only [hsplit, hparse, htime]
  rw [if_neg (by simp [hexp])]

/-- decrypt_secret fails exactly on the structurally bad blobs: too short
for the IV, ciphertext not block aligned, invalid padding after
decryption, or a decryption that is not valid UTF-8. -/
theorem decrypt_secret_none (C : CryptoPrims) (blob k : Bytes)
    (hbad : blob.length < 16
      ∨ ¬ (blob.drop 16).length % 16 = 0
      ∨ pkcs7Unpad (C.aesCbcDec k (blob.take 16) (blob.drop 16)) = none
      ∨ ∃ pt, pkcs7Unpad (C.aesCbcDec k (blob.take 16) (blob.drop 16)) = some pt
          ∧ validUtf8 pt = false) :
    decrypt_secret C blob k = none := by
  rw [decrypt_secret]
  simp only [BLOCK_SIZE]
  rcases hbad with h | h | h | ⟨pt, hpt, hutf⟩
  · have hc : ¬ (blob.take 16).length = 16 := by
      simp only [List.length_take]
      omega
    rw [if_pos hc]
  · by_cases h1 : ¬ (blob.take 16).length = 16
    · rw [if_pos h1]
    · rw [if_neg h1, if_pos h]
  · by_cases h1 : ¬ (blob.take 16).length = 16
    · rw [if_pos h1]
    · by_cases h2 : ¬ (blob.drop 16).length % 16 = 0
      · rw [if_neg h1, if_pos h2]
      · rw [if_neg h1, if_neg h2, h]
  · by_cases h1 : ¬ (blob.take 16).length = 16
    · rw [if_pos h1]
    · by_cases h2 : ¬ (blob.drop 16).length % 16 = 0
      · rw [if_neg h1, if_pos h2]
      · rw [if_neg h1, if_neg h2, hpt]
        simp [hutf]

/-- Claim C10: every structurally bad encrypted blob handed to decryption
after MAC verification and the expiry gate — empty, shorter than the
16-byte IV, not block aligned, invalid padding, or not decodable as
UTF-8 — is caught: the read terminates with DecryptionError and no
output file write happens on that path. -/
theorem decryptionError_handled (C : CryptoPrims) (content pw el blob : Bytes)
    (env : Env) (dt now : DT)
    (h32 : 32 < content.length)
    (hmac : C.hmacSha256 (derive_keys C pw).2 (content.take (content.length - 32))
            = content.drop (content.length - 32))
    (hsplit : splitFirst 10 (content.take (content.length - 32)) = some (el, blob))
    (hparse : parseExpiry el = some dt)
    (htime : env.trustedTime = some now)
    (hexp : dtLt now dt = false)
    (hbad : blob.length < 16
      ∨ ¬ (blob.drop 16).length % 16 = 0
      ∨ pkcs7Unpad (C.aesCbcDec (derive_keys C pw).1 (blob.take 16) (blob.drop 16)) = none
      ∨ ∃ pt, pkcs7Unpad (C.aesCbcDec (derive_keys C pw).1 (blob.take 16) (blob.drop 16))
            = some pt ∧ validUtf8 pt = false) :
    read_lockbox C content pw env
      = (ReadOutcome.decryptionError,
         [Event.deriveKeys, Event.macVerify true, Event.fetchTime true,
          Event.compareTime, Event.decrypt])
    ∧ ∀ n, ¬ Event.writeFile n ∈ (read_lockbox C content pw env).2 := by
  have hres := read_lockbox_decrypt_stage C content pw el blob env dt now
    h32 hmac hsplit hparse htime hexp
  rw [decrypt_secret_none C blob (derive_keys C pw).1 hbad] at hres
  refine ⟨hres, ?_⟩
  intro n
  rw [hres]
  simp

/-- Counterexample to claim C9: a lockbox whose decrypted third part is
AA==@ — containing the byte 64, which is outside the base64 alphabet and
is not the padding sign — is released with the decoded content of AA==,
not aborted with FormatError: the decoder discards the stray character. -/
theorem lenientBase64_counterexample :
    (read_lockbox toyCrypto content9 pw0 env0).1
        = ReadOutcome.released ⟨[97], [98], [0]⟩ (mkOutputName [97] [98])
    ∧ pySplitColon2 plain9 = [[97], [98], [65, 65, 61, 61, 64]]
    ∧ b64val 64 = none
    ∧ ¬ (64 : Nat) = 61
    ∧ decrypt_secret toyCrypto (iv0 ++ pkcs7Pad plain9) (derive_keys toyCrypto pw0).1
        = some plain9 := by
  decide

/-- Claim C9 as amended: the base64 decode of the third part is Python's
lenient decoder — characters outside the alphabet are discarded rather
than rejected — and the read aborts with FormatError exactly when that
lenient decode fails: a non-ASCII byte in the part, or remaining data
whose group structure or padding is invalid after the discards. -/
theorem lenientBase64_amended (C : CryptoPrims) (content pw el blob : Bytes)
    (env : Env) (dt now : DT) (pt a b c3 : Bytes)
    (h32 : 32 < content.length)
    (hmac : C.hmacSha256 (derive_keys C pw).2 (content.take (content.length - 32))
            = content.drop (content.length - 32))
    (hsplit : splitFirst 10 (content.take (content.length - 32)) = some (el, blob))
    (hparse : parseExpiry el = some dt)
    (htime : env.trustedTime = some now)
    (hexp : dtLt now dt = false)
    (hdec : decrypt_secret C blob (derive_keys C pw).1 = some pt)
    (hparts : pySplitColon2 pt = [a, b, c3])
    (hbad : pyB64Decode c3 = none) :
    read_lockbox C content pw env
      = (ReadOutcome.formatError FormatReason.badBase64,
         [Event.deriveKeys, Event.macVerify true, Event.fetchTime true,
          Event.compareTime, Event.decrypt]) := by
  have hres := read_lockbox_decrypt_stage C content pw el blob env dt now
    h32 hmac hsplit hparse htime hexp
  simp only [hdec, hparts, hbad] at hres
  exact hres

/-- Counterexample to claim C8: a 33-byte container with no newline in
the portion preceding the tag is not rejected with FormatError before MAC
verification; the MAC is verified first, and with a tag that does not
authenticate, the read aborts with IntegrityError instead. -/
theorem deserializeFirst_counterexample :
    32 < (List.replicate 33 65 : Bytes).length
    ∧ splitFirst 10
        ((List.replicate 33 65 : Bytes).take ((List.replicate 33 65 : Bytes).length - 32)) = none
    ∧ (read_lockbox toyCrypto (List.replicate 33 65) pw0 env0).1 = ReadOutcome.integrityError
    ∧ ¬ (read_lockbox toyCrypto (List.replicate 33 65) pw0 env0).1
        = ReadOutcome.formatError FormatReason.noNewline
    ∧ Event.macVerify false ∈ (read_lockbox toyCrypto (List.replicate 33 65) pw0 env0).2 := by
  decide

/-- Claim C8 as amended: a container no longer than the 32-byte tag
aborts with FormatError before MAC verification is attempted (key
derivation does still run first, though its output is unused); a longer
container with no newline before the tag aborts with FormatError only
after MAC verification succeeds, and aborts with IntegrityError instead
when the tag does not authenticate. -/
theorem deserializeFirst_amended (C : CryptoPrims) (content pw : Bytes) (env : Env) :
    (content.length ≤ 32 →
      read_lockbox C content pw env
        = (ReadOutcome.formatError FormatReason.tooSmall, [Event.deriveKeys]))
    ∧ (32 < content.length →
       splitFirst 10 (content.take (content.length - 32)) = none →
       C.hmacSha256 (derive_keys C pw).2 (content.take (content.length - 32))
          = content.drop (content.length - 32) →
       read_lockbox C content pw env
        = (ReadOutcome.formatError FormatReason.noNewline,
           [Event.deriveKeys, Event.macVerify true]))
    ∧ (32 < content.length →
       ¬ C.hmacSha256 (derive_keys C pw).2 (content.take (content.length - 32))
          = content.drop (content.length - 32) →
       read_lockbox C content pw env
        = (ReadOutcome.integrityError, [Event.deriveKeys, Event.macVerify false])) := by
  refine ⟨?_, ?_, ?_⟩
  · intro hle
    simp only [read_lockbox, HMAC_SIZE]
    rw [if_pos hle]
  · intro h32 hnl hmac
    simp only [read_lockbox, HMAC_SIZE]
    rw [if_neg (by omega), if_neg (not_not_intro hmac)]
    simp only [hnl]
  · intro h32 hne
    simp only [read_lockbox, HMAC_SIZE]
    rw [if_neg (by omega), if_pos hne]

/-- Claim C1: round trip.  For every password, every payload whose
nameStem and extension are colon-free (and, being Python strings, valid
UTF-8 when encoded), and every expiry string the write-side validation
accepts, reading the bytes produced by writing under that password — with
the trusted-time fetch succeeding and returning a time not earlier than
the expiry — releases the payload exactly: byte-identical content and
matching nameStem and extension. -/
theorem readLockbox_roundTrip (C : CryptoPrims) (e : Bytes) (p : Payload) (pw iv : Bytes)
    (env : Env) (dt now : DT)
    (hparse : parseExpiry e = some dt)
    (hiv : iv.length = 16)
    (hstem : validUtf8 p.nameStem = true)
    (hext : validUtf8 p.extension = true)
    (hstem58 : ¬ 58 ∈ p.nameStem)
    (hext58 : ¬ 58 ∈ p.extension)
    (hcontent : ∀ b ∈ p.content, b < 256)
    (htime : env.trustedTime = some now)
    (hpast : dtLt now dt = false) :
    (read_lockbox C (write_lockbox C e p pw iv) pw env).1
      = ReadOutcome.released p (mkOutputName p.nameStem p.extension) := by
  have hbox : write_lockbox C e p pw iv
      = (e ++ [10] ++ encrypt_secret C (encodePayload p) (derive_keys C pw).1 iv)
        ++ C.hmacSha256 (derive_keys C pw).2
            (e ++ [10] ++ encrypt_secret C (encodePayload p) (derive_keys C pw).1 iv) := rfl
  have htl := C.hmac_length (derive_keys C pw).2
    (e ++ [10] ++ encrypt_secret C (encodePayload p) (derive_keys C pw).1 iv)
  obtain ⟨ht, hd⟩ := append_tag_split
    (e ++ [10] ++ encrypt_secret C (encodePayload p) (derive_keys C pw).1 iv) _ htl
  have h32 : 32 <
      ((e ++ [10] ++ encrypt_secret C (encodePayload p) (derive_keys C pw).1 iv)
        ++ C.hmacSha256 (derive_keys C pw).2
            (e ++ [10] ++ encrypt_secret C (encodePayload p) (derive_keys C pw).1 iv)).length := by
    simp only [List.length_append, htl, List.length_cons, List.length_nil]
    omega
  have hsplit : splitFirst 10
      (e ++ [10] ++ encrypt_secret C (encodePayload p) (derive_keys C pw).1 iv)
      = some (e, encrypt_secret C (encodePayload p) (derive_keys C pw).1 iv) := by
    have hshape : e ++ [10] ++ encrypt_secret C (encodePayload p) (derive_keys C pw).1 iv
        = e ++ 10 :: encrypt_secret C (encodePayload p) (derive_keys C pw).1 iv := by
      simp
    rw [hshape]
    exact splitFirst_append 10 e _ (parseExpiry_no_newline e dt hparse)
  have hdec : decrypt_secret C (encrypt_secret C (encodePayload p) (derive_keys C pw).1 iv)
      (derive_keys C pw).1 = some (encodePayload p) :=
    decrypt_encrypt_secret C _ _ iv (C.sha256_length _) hiv
      (encodePayload_validUtf8 p hstem hext hcontent)
  have hparts : pySplitColon2 (encodePayload p)
      = [p.nameStem, p.extension, b64encode p.content] := by
    rw [encodePayload_shape]
    exact pySplitColon2_parts _ _ _ hstem58 hext58
  have hb64 : pyB64Decode (b64encode p.content) = some p.content :=
    pyB64Decode_b64encode _ hcontent
  rw [hbox]
  simp only [read_lockbox, HMAC_SIZE]
  rw [if_neg (by omega)]
  simp only [ht, hd]
  rw [if_neg (by simp : ¬ ¬ True)]
  simp only [hsplit, hparse, htime]
  rw [if_neg (by simp [hpast])]
  simp only [hdec, hparts, hb64]

/-- Witness for C1 at the spec's concrete scenario: password p1, expiry
01/01/2000 00:00:00, file a.txt containing hello, read after expiry. -/
theorem readLockbox_roundTrip_witness :
    (read_lockbox toyCrypto (write_lockbox toyCrypto e0 payload0 pw0 iv0) pw0 env0).1
      = ReadOutcome.released payload0 (mkOutputName payload0.nameStem payload0.extension) :=
  readLockbox_roundTrip toyCrypto e0 payload0 pw0 iv0 env0 dt0 now0
    (by decide) (by decide) (by decide) (by decide) (by decide) (by decide)
    (by decide) rfl (by decide)

/-- Witness for C2 at a 40-byte container whose tag does not
authenticate. -/
theorem macVerify_before_decrypt_witness :
    read_lockbox toyCrypto (List.replicate 40 66) pw0 env0
      = (ReadOutcome.integrityError, [Event.deriveKeys, Event.macVerify false]) :=
  (macVerify_before_decrypt toyCrypto (List.replicate 40 66) pw0 env0).1
    (by decide) (by decide)

/-- Witness for C3: the concrete scenario lockbox read with password p2
instead of p1. -/
theorem wrongPassword_integrityError_witness :
    read_lockbox toyCrypto (write_lockbox toyCrypto e0 payload0 pw0 iv0) [112, 50] env0
      = (ReadOutcome.integrityError, [Event.deriveKeys, Event.macVerify false]) :=
  wrongPassword_integrityError toyCrypto e0 payload0 pw0 [112, 50] iv0 env0 (by decide)

/-- Witness for C4: a valid container read with a trusted time before the
expiry. -/
theorem notYetExpired_gate_witness :
    read_lockbox toyCrypto content9 pw0 ⟨some ⟨1999, 12, 31, 23, 59, 59, 0⟩, now0⟩
      = (ReadOutcome.notYetExpired dt0,
         [Event.deriveKeys, Event.macVerify true, Event.fetchTime true, Event.compareTime]) :=
  (notYetExpired_gate toyCrypto content9 pw0 e0 (iv0 ++ pkcs7Pad plain9)
      ⟨some ⟨1999, 12, 31, 23, 59, 59, 0⟩, now0⟩ dt0 ⟨1999, 12, 31, 23, 59, 59, 0⟩
      (by decide) (by decide) (by decide) (by decide) rfl).1 (by decide)

/-- Witness for C5: a valid container read in an environment whose time
fetch fails. -/
theorem timeUnavailable_aborts_witness :
    read_lockbox toyCrypto content9 pw0 envNone
      = (ReadOutcome.timeUnavailable,
         [Event.deriveKeys, Event.macVerify true, Event.fetchTime false]) := by
  have h := (timeUnavailable_aborts toyCrypto content9 pw0 envNone rfl).1
    (read_lockbox toyCrypto content9 pw0 envNone).1
    (read_lockbox toyCrypto content9 pw0 envNone).2 rfl
  exact h.1 (by decide)

/-- Witness for the amended C8: the no-newline container with a valid tag
reaches FormatError only after MAC verification succeeds, and a short
container aborts before it. -/
theorem deserializeFirst_amended_witness :
    read_lockbox toyCrypto content8b pw0 env0
      = (ReadOutcome.formatError FormatReason.noNewline,
         [Event.deriveKeys, Event.macVerify true])
    ∧ read_lockbox toyCrypto [65] pw0 env0
      = (ReadOutcome.formatError FormatReason.tooSmall, [Event.deriveKeys]) :=
  ⟨(deserializeFirst_amended toyCrypto content8b pw0 env0).2.1
      (by decide) (by decide) (by decide),
   (deserializeFirst_amended toyCrypto [65] pw0 env0).1 (by decide)⟩

/-- Witness for the amended C9: a container whose decrypted third part is
the single character x, which even the lenient decoder rejects. -/
theorem lenientBase64_amended_witness :
    read_lockbox toyCrypto content9b pw0 env0
      = (ReadOutcome.formatError FormatReason.badBase64,
         [Event.deriveKeys, Event.macVerify true, Event.fetchTime true,
          Event.compareTime, Event.decrypt]) :=
  lenientBase64_amended toyCrypto content9b pw0 e0 (iv0 ++ pkcs7Pad [97, 58, 98, 58, 120])
    env0 dt0 now0 [97, 58, 98, 58, 120] [97] [98] [120]
    (by decide) (by decide) (by decide) (by decide) rfl (by decide)
    (by decide) (by decide) (by decide)

/-- Witness for C10: a container whose encrypted blob is empty. -/
theorem decryptionError_handled_witness :
    read_lockbox toyCrypto content10 pw0 env0
      = (ReadOutcome.decryptionError,
         [Event.deriveKeys, Event.macVerify true, Event.fetchTime true,
          Event.compareTime, Event.decrypt])
    ∧ ∀ n, ¬ Event.writeFile n ∈ (read_lockbox toyCrypto content10 pw0 env0).2 :=
  decryptionError_handled toyCrypto content10 pw0 e0 [] env0 dt0 now0
    (by decide) (by decide) (by decide) (by decide) rfl (by decide)
    (Or.inl (by decide))
